import Mathlib

/-!
Shallow embedding of the mock growable-byte-buffer and parser library
(`benchmarks/mocklib/mocklib.c`).

Modelling conventions:
* Bytes are `Nat` values; the byte store of a buffer is a `List Nat` whose
  length equals the allocated capacity.  Freshly allocated (uninitialised)
  memory is modelled by the junk byte `170` (0xAA), so that terminator
  writes are observable and never hold vacuously.
* `malloc`/`realloc` are modelled as succeeding; the two allocations inside
  `mock_parser_parse` whose failure the code handles explicitly (the
  transient buffer creation and the final output allocation) are modelled
  by two boolean oracle parameters.
* A C byte span `(ptr, size)` is modelled as `Option (List Nat)`: `none` is
  a null pointer, and for `some bytes` the span's `size` is `bytes.length`.
* The out-of-bounds write `buffer->data[0] = '\0'` that
  `mock_buffer_create(0)` performs on a zero-byte allocation is modelled as
  a no-op (`List.set` out of range), matching the observable heap state.
* The growth loop in `mock_buffer_append` is modelled by the fuel-indexed
  `growWhile`; `none` means the fuel ran out, which models the C loop
  failing to terminate (it never exits once `new_capacity` is `0`).  The
  fuel passed by `mock_buffer_append` is provably sufficient whenever the
  starting capacity is positive.
-/

namespace Mocklib

/-- Junk byte standing for uninitialised allocated memory. -/
def junkByte : Nat := 170

/-- `struct mock_buffer`: byte store (length = `capacity`), used size,
allocated capacity. -/
structure mock_buffer_t where
  data : List Nat
  size : Nat
  capacity : Nat
deriving Repr, DecidableEq

/-- `struct mock_parser`: parse state, stored output bytes (without the
trailing terminator; `none` models a null `input` pointer), stored output
size, last error code. -/
structure mock_parser_t where
  state : Nat
  input : Option (List Nat)
  input_size : Nat
  error_code : Nat
deriving Repr, DecidableEq

/-- `mock_buffer_create`: allocates `initial_capacity` bytes, sets
`size = 0`, `capacity = initial_capacity`, and writes `data[0] = '\0'`
(a no-op on the model's store when the allocation is empty). -/
def mock_buffer_create (initial_capacity : Nat) : mock_buffer_t :=
  { data := (List.replicate initial_capacity junkByte).set 0 0,
    size := 0,
    capacity := initial_capacity }

/-- `realloc(data, new_capacity)`: keeps the first
`min new_capacity data.length` bytes, any extra space is uninitialised. -/
def reallocBytes (data : List Nat) (new_capacity : Nat) : List Nat :=
  data.take new_capacity ++ List.replicate (new_capacity - data.length) junkByte

/-- `mock_buffer_resize`: rejects `new_capacity ≤ size`, otherwise
reallocates to exactly `new_capacity` bytes (realloc modelled as
succeeding).  Returns the updated buffer and the C return code. -/
def mock_buffer_resize (buffer : mock_buffer_t) (new_capacity : Nat) :
    mock_buffer_t × Int :=
  if new_capacity ≤ buffer.size then (buffer, -1)
  else
    ({ data := reallocBytes buffer.data new_capacity,
       size := buffer.size,
       capacity := new_capacity }, 0)

/-- `memcpy(store + pos, src, src.length)` for an in-bounds destination
region of an existing store. -/
def memcpyAt (store : List Nat) (pos : Nat) (src : List Nat) : List Nat :=
  store.take pos ++ src ++ store.drop (pos + src.length)

/-- The growth loop of `mock_buffer_append`:
`while (new_capacity < needed) new_capacity *= 2;`, with explicit fuel.
`none` models exhausting the fuel, i.e. the C loop not having terminated
within `fuel` iterations (from `new_capacity = 0` it never does). -/
def growWhile : Nat → Nat → Nat → Option Nat
  | 0, new_capacity, needed =>
      if new_capacity < needed then none else some new_capacity
  | fuel + 1, new_capacity, needed =>
      if new_capacity < needed then growWhile fuel (new_capacity * 2) needed
      else some new_capacity

/-- The unconditional tail of `mock_buffer_append`: copy the bytes at
offset `size`, advance `size`, write the terminator at the new `size`. -/
def appendCopy (buffer : mock_buffer_t) (data : List Nat) : mock_buffer_t :=
  { data := (memcpyAt buffer.data buffer.size data).set
      (buffer.size + data.length) 0,
    size := buffer.size + data.length,
    capacity := buffer.capacity }

/-- `mock_buffer_append(buffer, data, size)` with `size = data.length`;
`data = []` covers both a null `data` pointer and `size == 0`, which the C
code rejects in the same branch.  The `none` arm of the growth loop is the
model's stand-in for the loop never terminating; the fuel is sufficient for
every positive starting capacity. -/
def mock_buffer_append (buffer : mock_buffer_t) (data : List Nat) :
    mock_buffer_t × Int :=
  if data.length = 0 then (buffer, -1)
  else if buffer.size + data.length + 1 > buffer.capacity then
    match growWhile (buffer.size + data.length + 1) (buffer.capacity * 2)
        (buffer.size + data.length + 1) with
    | none => (buffer, -1)
    | some new_capacity =>
      let r := mock_buffer_resize buffer new_capacity
      if r.2 ≠ 0 then (r.1, -1) else (appendCopy r.1 data, 0)
  else (appendCopy buffer data, 0)

/-- `mock_buffer_get_data` on a non-null handle: the backing store. -/
def mock_buffer_get_data (buffer : mock_buffer_t) : List Nat :=
  buffer.data

/-- `mock_parser_create`: state `0`, null stored input, size `0`,
error code `0`. -/
def mock_parser_create : mock_parser_t :=
  { state := 0, input := none, input_size := 0, error_code := 0 }

/-- `mock_validate_input`: `0` for a null span or `size == 0`, `0` if any
byte lies outside the printable range `[32,126]`, else `1`. -/
def mock_validate_input (input : Option (List Nat)) : Int :=
  match input with
  | none => 0
  | some bytes =>
    if bytes.length = 0 then 0
    else if bytes.all (fun b => decide (32 ≤ b ∧ b ≤ 126)) then 1 else 0

/-- The per-byte transform of `mock_parser_parse`: lowercase ASCII letters
(`'a'..'z'`, i.e. 97..122) map to their uppercase counterparts, everything
else passes through. -/
def processChar (c : Nat) : Nat :=
  if 97 ≤ c ∧ c ≤ 122 then c - 97 + 65 else c

/-- The processing loop of `mock_parser_parse`: append each transformed
byte, one at a time, to the transient buffer; `none` if an append fails. -/
def parseLoop (buffer : mock_buffer_t) : List Nat → Option mock_buffer_t
  | [] => some buffer
  | c :: rest =>
    let r := mock_buffer_append buffer [processChar c]
    if r.2 = 0 then parseLoop r.1 rest else none

/-- `mock_parser_parse(parser, input, size)` for a non-null parser handle,
with `size = bytes.length` for `input = some bytes`.  `buffer_alloc_ok`
is the oracle for the transient `mock_buffer_create` allocation,
`final_alloc_ok` for the final `malloc` of the stored output.  On the
final-allocation failure the C code has already freed the previous
`parser->input` and overwritten `parser->input_size`, so the model sets
`input := none` and `input_size` to the transient buffer's size there. -/
def mock_parser_parse (parser : mock_parser_t) (input : Option (List Nat))
    (buffer_alloc_ok final_alloc_ok : Bool) : mock_parser_t × Int :=
  match input with
  | none => ({ parser with error_code := 1 }, -1)
  | some bytes =>
    if bytes.length = 0 then ({ parser with error_code := 1 }, -1)
    else if mock_validate_input (some bytes) ≠ 1 then
      ({ parser with error_code := 2 }, -1)
    else if buffer_alloc_ok = false then
      ({ parser with error_code := 3 }, -1)
    else
      match parseLoop (mock_buffer_create (bytes.length * 2)) bytes with
      | none => ({ parser with error_code := 4 }, -1)
      | some buffer =>
        if final_alloc_ok = false then
          ({ parser with input := none, input_size := buffer.size, error_code := 5 }, -1)
        else
          ({ parser with input := some (buffer.data.take buffer.size), input_size := buffer.size, state := 1 }, 0)

/-- The buffer well-formedness invariant stated by the specification:
the store has exactly `capacity` bytes, `capacity ≥ size + 1`, and the
byte at index `size` is the zero terminator. -/
def buffer_inv (b : mock_buffer_t) : Prop :=
  b.data.length = b.capacity ∧ b.size + 1 ≤ b.capacity ∧
    b.data[b.size]? = some 0

instance (b : mock_buffer_t) : Decidable (buffer_inv b) := by
  unfold buffer_inv; infer_instance

/-! ### Properties of the growth loop -/

theorem growWhile_some_ge (fuel : Nat) :
    ∀ nc needed r, growWhile fuel nc needed = some r → needed ≤ r ∧ nc ≤ r := by
  induction fuel with
  | zero =>
    intro nc needed r h
    unfold growWhile at h
    split at h
    · exact absurd h (by simp)
    · simp only [Option.some.injEq] at h
      omega
  | succ fuel ih =>
    intro nc needed r h
    unfold growWhile at h
    split at h
    · obtain ⟨h1, h2⟩ := ih _ _ _ h
      constructor
      · exact h1
      · omega
    · simp only [Option.some.injEq] at h
      omega

theorem growWhile_some_pow (fuel : Nat) :
    ∀ nc needed r, growWhile fuel nc needed = some r → ∃ k, r = nc * 2 ^ k := by
  induction fuel with
  | zero =>
    intro nc needed r h
    unfold growWhile at h
    split at h
    · exact absurd h (by simp)
    · simp only [Option.some.injEq] at h
      exact ⟨0, by simp [h.symm]⟩
  | succ fuel ih =>
    intro nc needed r h
    unfold growWhile at h
    split at h
    · obtain ⟨k, hk⟩ := ih _ _ _ h
      refine ⟨k + 1, ?_⟩
      rw [hk, pow_succ]
      ring
    · simp only [Option.some.injEq] at h
      exact ⟨0, by simp [h.symm]⟩

theorem growWhile_some_min (fuel : Nat) :
    ∀ nc needed r, growWhile fuel nc needed = some r →
      ∀ j, needed ≤ nc * 2 ^ j → r ≤ nc * 2 ^ j := by
  induction fuel with
  | zero =>
    intro nc needed r h j _
    unfold growWhile at h
    split at h
    · exact absurd h (by simp)
    · simp only [Option.some.injEq] at h
      calc r = nc := h.symm
        _ = nc * 1 := by ring
        _ ≤ nc * 2 ^ j := Nat.mul_le_mul_left nc Nat.one_le_two_pow
  | succ fuel ih =>
    intro nc needed r h j hj
    unfold growWhile at h
    split at h
    · next hlt =>
      match j with
      | 0 =>
        simp only [pow_zero, Nat.mul_one] at hj
        omega
      | j + 1 =>
        have hrw : nc * 2 ^ (j + 1) = nc * 2 * 2 ^ j := by
          rw [pow_succ]; ring
        rw [hrw] at hj ⊢
        exact ih _ _ _ h j hj
    · simp only [Option.some.injEq] at h
      calc r = nc := h.symm
        _ = nc * 1 := by ring
        _ ≤ nc * 2 ^ j := Nat.mul_le_mul_left nc Nat.one_le_two_pow

theorem growWhile_isSome (fuel : Nat) :
    ∀ nc needed, 1 ≤ nc → needed ≤ nc + fuel →
      ∃ r, growWhile fuel nc needed = some r := by
  induction fuel with
  | zero =>
    intro nc needed _ hle
    refine ⟨nc, ?_⟩
    unfold growWhile
    split
    · omega
    · rfl
  | succ fuel ih =>
    intro nc needed hnc hle
    unfold growWhile
    split
    · exact ih (nc * 2) needed (by omega) (by omega)
    · exact ⟨nc, rfl⟩

theorem growWhile_zero_start (fuel : Nat) :
    ∀ needed, 1 ≤ needed → growWhile fuel 0 needed = none := by
  induction fuel with
  | zero =>
    intro needed h
    unfold growWhile
    split
    · rfl
    · omega
  | succ fuel ih =>
    intro needed h
    unfold growWhile
    split
    · simpa using ih needed h
    · omega

/-! ### List-level helper lemmas -/

theorem take_set_of_le (l : List Nat) (i n : Nat) (a : Nat) (h : n ≤ i) :
    (l.set i a).take n = l.take n := by
  rw [List.set_take, List.set_eq_of_length_le]
  simp only [List.length_take]
  omega

theorem length_memcpyAt (store : List Nat) (pos : Nat) (src : List Nat)
    (h : pos + src.length ≤ store.length) :
    (memcpyAt store pos src).length = store.length := by
  simp only [memcpyAt, List.length_append, List.length_take, List.length_drop]
  omega

theorem take_memcpyAt (store : List Nat) (pos : Nat) (src : List Nat)
    (h : pos ≤ store.length) :
    (memcpyAt store pos src).take (pos + src.length) = store.take pos ++ src := by
  unfold memcpyAt
  apply List.take_left'
  simp only [List.length_append, List.length_take]
  omega

theorem length_reallocBytes (data : List Nat) (n : Nat) :
    (reallocBytes data n).length = n := by
  simp only [reallocBytes, List.length_append, List.length_take,
    List.length_replicate]
  omega

theorem take_reallocBytes (data : List Nat) (n m : Nat)
    (hmn : m ≤ n) (hml : m ≤ data.length) :
    (reallocBytes data n).take m = data.take m := by
  unfold reallocBytes
  rw [List.take_append_of_le_length, List.take_take, Nat.min_eq_left hmn]
  simp only [List.length_take]
  omega

theorem getElem?_reallocBytes (data : List Nat) (n i : Nat)
    (hin : i < n) (hil : i < data.length) :
    (reallocBytes data n)[i]? = data[i]? := by
  unfold reallocBytes
  rw [List.getElem?_append_left, List.getElem?_take_of_lt hin]
  simp only [List.length_take]
  omega

/-! ### Behaviour of the buffer operations -/

theorem create_inv (c : Nat) (hc : 1 ≤ c) :
    buffer_inv (mock_buffer_create c) := by
  refine ⟨by simp [mock_buffer_create], by simpa [mock_buffer_create], ?_⟩
  show ((List.replicate c junkByte).set 0 0)[0]? = some 0
  rw [List.getElem?_set_self]
  simpa using hc

theorem appendCopy_spec (b : mock_buffer_t) (l : List Nat)
    (hlen : b.data.length = b.capacity)
    (hcap : b.size + l.length + 1 ≤ b.capacity) :
    (appendCopy b l).size = b.size + l.length ∧
    (appendCopy b l).capacity = b.capacity ∧
    (appendCopy b l).data.length = b.capacity ∧
    (appendCopy b l).data.take (b.size + l.length) = b.data.take b.size ++ l ∧
    (appendCopy b l).data[b.size + l.length]? = some 0 := by
  have hmem : (memcpyAt b.data b.size l).length = b.data.length :=
    length_memcpyAt _ _ _ (by omega)
  refine ⟨rfl, rfl, ?_, ?_, ?_⟩
  · show ((memcpyAt b.data b.size l).set (b.size + l.length) 0).length = b.capacity
    rw [List.length_set, hmem, hlen]
  · show ((memcpyAt b.data b.size l).set (b.size + l.length) 0).take
        (b.size + l.length) = b.data.take b.size ++ l
    rw [take_set_of_le _ _ _ _ (Nat.le_refl _)]
    exact take_memcpyAt _ _ _ (by omega)
  · show ((memcpyAt b.data b.size l).set (b.size + l.length) 0)[b.size + l.length]?
        = some 0
    rw [List.getElem?_set_self]
    rw [hmem]
    omega

theorem append_spec (b : mock_buffer_t) (l : List Nat)
    (hinv : buffer_inv b) (hl : l ≠ []) :
    (mock_buffer_append b l).2 = 0 ∧
    buffer_inv (mock_buffer_append b l).1 ∧
    (mock_buffer_append b l).1.size = b.size + l.length ∧
    (mock_buffer_append b l).1.data.take (b.size + l.length)
      = b.data.take b.size ++ l ∧
    (b.size + l.length + 1 ≤ b.capacity →
      (mock_buffer_append b l).1.capacity = b.capacity) ∧
    (b.capacity < b.size + l.length + 1 →
      growWhile (b.size + l.length + 1) (b.capacity * 2) (b.size + l.length + 1)
        = some ((mock_buffer_append b l).1.capacity)) := by
  obtain ⟨hlen, hcap1, hterm⟩ := hinv
  have hn : ¬ l.length = 0 := by simpa [List.length_eq_zero] using hl
  by_cases hg : b.size + l.length + 1 ≤ b.capacity
  · have hres : mock_buffer_append b l = (appendCopy b l, 0) := by
      unfold mock_buffer_append
      rw [if_neg hn, if_neg (by omega)]
    obtain ⟨k1, k2, k3, k4, k5⟩ := appendCopy_spec b l hlen hg
    rw [hres]
    refine ⟨rfl, ⟨?_, ?_, ?_⟩, k1, k4, fun _ => k2, fun hlt => by omega⟩
    · rw [k3, k2]
    · rw [k1, k2]; exact hg
    · rw [k1]; exact k5
  · have hg' : b.capacity < b.size + l.length + 1 := by omega
    have hpos : 1 ≤ b.capacity := by omega
    obtain ⟨r, hr⟩ := growWhile_isSome (b.size + l.length + 1)
      (b.capacity * 2) (b.size + l.length + 1) (by omega) (by omega)
    obtain ⟨hger, hgestart⟩ := growWhile_some_ge _ _ _ _ hr
    have hrsize : ¬ (r ≤ b.size) := by omega
    have hrd : (mock_buffer_resize b r).1.data = reallocBytes b.data r := by
      unfold mock_buffer_resize
      rw [if_neg hrsize]
    have hrs : (mock_buffer_resize b r).1.size = b.size := by
      unfold mock_buffer_resize
      rw [if_neg hrsize]
    have hrc : (mock_buffer_resize b r).1.capacity = r := by
      unfold mock_buffer_resize
      rw [if_neg hrsize]
    have hrr : (mock_buffer_resize b r).2 = 0 := by
      unfold mock_buffer_resize
      rw [if_neg hrsize]
    have hres : mock_buffer_append b l =
        (appendCopy (mock_buffer_resize b r).1 l, 0) := by
      unfold mock_buffer_append
      rw [if_neg hn, if_pos (by omega), hr]
      simp only [hrr]
      simp
    have hlen2 : (mock_buffer_resize b r).1.data.length
        = (mock_buffer_resize b r).1.capacity := by
      rw [hrd, hrc]
      apply length_reallocBytes
    have hcap2 : (mock_buffer_resize b r).1.size + l.length + 1
        ≤ (mock_buffer_resize b r).1.capacity := by
      rw [hrs, hrc]
      omega
    obtain ⟨k1, k2, k3, k4, k5⟩ := appendCopy_spec (mock_buffer_resize b r).1 l
      hlen2 hcap2
    have htake : (reallocBytes b.data r).take b.size = b.data.take b.size :=
      take_reallocBytes _ _ _ (by omega) (by omega)
    rw [hres]
    rw [hrs] at k1 k4 k5
    rw [hrc] at k2
    refine ⟨rfl, ⟨?_, ?_, ?_⟩, k1, ?_, fun hle => by omega, fun _ => ?_⟩
    · rw [k3, k2, hrc]
    · rw [k1, k2]
      omega
    · rw [k1]
      exact k5
    · rw [k4, hrd, htake]
    · rw [k2]
      exact hr

/-! ### Behaviour of the parser -/

theorem validate_eq_one (bytes : List Nat) (hne : bytes ≠ []) :
    (mock_validate_input (some bytes) = 1 ↔ ∀ b ∈ bytes, 32 ≤ b ∧ b ≤ 126) := by
  have hn : ¬ bytes.length = 0 := by simpa [List.length_eq_zero] using hne
  show (if bytes.length = 0 then (0 : Int)
    else if bytes.all (fun b => decide (32 ≤ b ∧ b ≤ 126)) then 1 else 0) = 1
      ↔ ∀ b ∈ bytes, 32 ≤ b ∧ b ≤ 126
  rw [if_neg hn]
  by_cases hall : bytes.all (fun b => decide (32 ≤ b ∧ b ≤ 126)) = true
  · rw [if_pos hall]
    simp only [List.all_eq_true, decide_eq_true_eq] at hall
    simpa using hall
  · rw [if_neg hall]
    simp only [List.all_eq_true, decide_eq_true_eq] at hall
    constructor
    · intro h
      exact absurd h (by norm_num)
    · intro h
      exact absurd h hall

theorem parseLoop_spec (cs : List Nat) :
    ∀ b, buffer_inv b →
      ∃ b2, parseLoop b cs = some b2 ∧ buffer_inv b2 ∧
        b2.size = b.size + cs.length ∧
        b2.data.take b2.size = b.data.take b.size ++ cs.map processChar := by
  induction cs with
  | nil =>
    intro b hb
    exact ⟨b, rfl, hb, by simp, by simp⟩
  | cons c rest ih =>
    intro b hb
    obtain ⟨hz, hinv1, hsize1, htake1, _, _⟩ :=
      append_spec b [processChar c] hb (by simp)
    simp only [List.length_singleton] at hsize1 htake1
    obtain ⟨b2, hb2, hinv2, hsize2, htake2⟩ :=
      ih (mock_buffer_append b [processChar c]).1 hinv1
    refine ⟨b2, ?_, hinv2, ?_, ?_⟩
    · show (if (mock_buffer_append b [processChar c]).2 = 0 then
        parseLoop (mock_buffer_append b [processChar c]).1 rest else none)
          = some b2
      rw [if_pos hz, hb2]
    · rw [hsize2, hsize1, List.length_cons]
      omega
    · rw [htake2, hsize1, htake1, List.map_cons]
      simp

theorem parse_valid_spec (p : mock_parser_t) (bytes : List Nat)
    (hne : bytes ≠ []) (hpr : ∀ b ∈ bytes, 32 ≤ b ∧ b ≤ 126) :
    mock_parser_parse p (some bytes) true true
      = ({ p with input := some (bytes.map processChar), input_size := bytes.length, state := 1 }, 0) := by
  have hn : ¬ bytes.length = 0 := by simpa [List.length_eq_zero] using hne
  have hcinv : buffer_inv (mock_buffer_create (bytes.length * 2)) :=
    create_inv _ (by omega)
  obtain ⟨B, hB, _, hBsize, hBtake⟩ :=
    parseLoop_spec bytes (mock_buffer_create (bytes.length * 2)) hcinv
  have hv : mock_validate_input (some bytes) = 1 :=
    (validate_eq_one bytes hne).mpr hpr
  simp only [mock_parser_parse]
  rw [if_neg hn, if_neg (by rw [hv]; simp), if_neg (by simp), hB]
  simp only [mock_buffer_create] at hBsize hBtake
  simp only [List.take_zero, List.nil_append, Nat.zero_add] at hBsize hBtake
  rw [hBsize] at hBtake
  simp [hBtake, hBsize]

theorem append_nil (b : mock_buffer_t) : mock_buffer_append b [] = (b, -1) := by
  unfold mock_buffer_append
  simp

theorem parse_final_alloc_fail_spec (p : mock_parser_t) (bytes : List Nat)
    (hne : bytes ≠ []) (hpr : ∀ b ∈ bytes, 32 ≤ b ∧ b ≤ 126) :
    mock_parser_parse p (some bytes) true false
      = ({ p with input := none, input_size := bytes.length, error_code := 5 }, -1) := by
  have hn : ¬ bytes.length = 0 := by simpa [List.length_eq_zero] using hne
  have hcinv : buffer_inv (mock_buffer_create (bytes.length * 2)) :=
    create_inv _ (by omega)
  obtain ⟨B, hB, _, hBsize, _⟩ :=
    parseLoop_spec bytes (mock_buffer_create (bytes.length * 2)) hcinv
  have hv : mock_validate_input (some bytes) = 1 :=
    (validate_eq_one bytes hne).mpr hpr
  simp only [mock_parser_parse]
  rw [if_neg hn, if_neg (by rw [hv]; simp), if_neg (by simp), hB]
  simp only [mock_buffer_create] at hBsize
  simp only [Nat.zero_add] at hBsize
  simp [hBsize]

theorem parse_branches (p : mock_parser_t) (input : Option (List Nat))
    (bOk fOk : Bool) :
    mock_parser_parse p input bOk fOk = ({ p with error_code := 1 }, -1) ∨
    mock_parser_parse p input bOk fOk = ({ p with error_code := 2 }, -1) ∨
    mock_parser_parse p input bOk fOk = ({ p with error_code := 3 }, -1) ∨
    (∃ sz, mock_parser_parse p input bOk fOk
      = ({ p with input := none, input_size := sz, error_code := 5 }, -1)) ∨
    (mock_parser_parse p input bOk fOk).2 = 0 := by
  match input with
  | none => exact Or.inl rfl
  | some bytes =>
    by_cases h0 : bytes.length = 0
    · refine Or.inl ?_
      simp only [mock_parser_parse]
      rw [if_pos h0]
    · by_cases hv : mock_validate_input (some bytes) = 1
      · match bOk with
        | false =>
          refine Or.inr (Or.inr (Or.inl ?_))
          simp only [mock_parser_parse]
          rw [if_neg h0, if_neg (by simp [hv])]
          simp
        | true =>
          have hne : bytes ≠ [] := by simpa [← List.length_eq_zero] using h0
          have hpr := (validate_eq_one bytes hne).mp hv
          have hcinv : buffer_inv (mock_buffer_create (bytes.length * 2)) :=
            create_inv _ (by omega)
          obtain ⟨B, hB, _, _, _⟩ :=
            parseLoop_spec bytes (mock_buffer_create (bytes.length * 2)) hcinv
          match fOk with
          | false =>
            refine Or.inr (Or.inr (Or.inr (Or.inl ⟨B.size, ?_⟩)))
            simp only [mock_parser_parse]
            rw [if_neg h0, if_neg (by simp [hv]), if_neg (by simp), hB]
            simp
          | true =>
            refine Or.inr (Or.inr (Or.inr (Or.inr ?_)))
            simp only [mock_parser_parse]
            rw [if_neg h0, if_neg (by simp [hv]), if_neg (by simp), hB]
            simp
      · refine Or.inr (Or.inl ?_)
        simp only [mock_parser_parse]
        rw [if_neg h0, if_pos hv]

/-! ### Claims -/

/-- C1: for every non-null parser handle and every non-empty input whose
bytes all lie in the printable range [32,126], `parse` returns 0, sets the
state to Parsed (1), and the stored output is the byte-wise uppercase
transform of the input, with length equal to the input size. -/
theorem claim_C1 (p : mock_parser_t) (bytes : List Nat) (hne : bytes ≠ [])
    (hpr : ∀ b ∈ bytes, 32 ≤ b ∧ b ≤ 126) :
    (mock_parser_parse p (some bytes) true true).2 = 0 ∧
    (mock_parser_parse p (some bytes) true true).1.state = 1 ∧
    (mock_parser_parse p (some bytes) true true).1.input
      = some (bytes.map processChar) ∧
    (mock_parser_parse p (some bytes) true true).1.input_size = bytes.length := by
  rw [parse_valid_spec p bytes hne hpr]
  exact ⟨rfl, rfl, rfl, rfl⟩

theorem claim_C1_witness :
    (mock_parser_parse mock_parser_create (some [104, 101, 108, 108, 111]) true true).2 = 0 ∧
    (mock_parser_parse mock_parser_create (some [104, 101, 108, 108, 111]) true true).1.state = 1 ∧
    (mock_parser_parse mock_parser_create (some [104, 101, 108, 108, 111]) true true).1.input = some [72, 69, 76, 76, 79] ∧
    (mock_parser_parse mock_parser_create (some [104, 101, 108, 108, 111]) true true).1.input_size = 5 := by
  have h := claim_C1 mock_parser_create [104, 101, 108, 108, 111]
    (by decide) (by decide)
  refine ⟨h.1, h.2.1, ?_, ?_⟩
  · rw [h.2.2.1]
    decide
  · rw [h.2.2.2]
    rfl

/-- C2: the claim says `append` with `count == 0` is a no-op success, and
the repository's own unit test asserts the return code 0; the code instead
returns -1 in that case (while indeed changing nothing), so this evaluates
the code's actual behaviour at the claim's input. -/
theorem claim_C2 (b : mock_buffer_t) :
    mock_buffer_append b [] = (b, -1) :=
  append_nil b

theorem claim_C2_witness :
    mock_buffer_append (mock_buffer_create 10) [] = (mock_buffer_create 10, -1) :=
  claim_C2 (mock_buffer_create 10)

/-- C3: the claim says `create(capacity)` yields capacity `max(capacity,1)`
with a terminator at offset 0; the code sets the capacity to exactly the
requested value, so `create(0)` produces capacity 0 with no byte at
offset 0 (the C code's terminator write is out of bounds there), while for
every requested capacity ≥ 1 the claim's description holds. -/
theorem claim_C3 :
    (mock_buffer_create 0).capacity = 0 ∧
    (mock_buffer_create 0).data[0]? = none ∧
    (∀ c, 1 ≤ c → (mock_buffer_create c).capacity = c ∧
      (mock_buffer_create c).size = 0 ∧
      (mock_buffer_create c).data[0]? = some 0) := by
  refine ⟨rfl, rfl, ?_⟩
  intro c hc
  refine ⟨rfl, rfl, ?_⟩
  show ((List.replicate c junkByte).set 0 0)[0]? = some 0
  rw [List.getElem?_set_self]
  simpa using hc

theorem claim_C3_witness :
    (mock_buffer_create 0).capacity = 0 ∧
    (mock_buffer_create 3).capacity = 3 ∧
    (mock_buffer_create 3).data[0]? = some 0 :=
  ⟨claim_C3.1, (claim_C3.2.2 3 (by decide)).1, (claim_C3.2.2 3 (by decide)).2.2⟩

/-- C4: the invariant `capacity ≥ length + 1` with a terminator at index
`length` is violated by the successful `create(0)` (capacity 0), as the
repository's own test for `create(0)` documents (it expects capacity 1);
`create` with a positive requested capacity establishes the invariant, and
every successful `append` and `resize` preserves it. -/
theorem claim_C4 :
    ¬ buffer_inv (mock_buffer_create 0) ∧
    (∀ c, 1 ≤ c → buffer_inv (mock_buffer_create c)) ∧
    (∀ b l, buffer_inv b → (mock_buffer_append b l).2 = 0 →
      buffer_inv (mock_buffer_append b l).1) ∧
    (∀ b n, buffer_inv b → (mock_buffer_resize b n).2 = 0 →
      buffer_inv (mock_buffer_resize b n).1) := by
  refine ⟨by decide, fun c hc => create_inv c hc, ?_, ?_⟩
  · intro b l hb hz
    by_cases hl : l = []
    · rw [hl, append_nil] at hz
      exact absurd hz (by norm_num)
    · exact (append_spec b l hb hl).2.1
  · intro b n hb hz
    by_cases h : n ≤ b.size
    · have : (mock_buffer_resize b n).2 = -1 := by
        unfold mock_buffer_resize
        rw [if_pos h]
      rw [this] at hz
      exact absurd hz (by norm_num)
    · have hd : (mock_buffer_resize b n).1.data = reallocBytes b.data n := by
        unfold mock_buffer_resize
        rw [if_neg h]
      have hs : (mock_buffer_resize b n).1.size = b.size := by
        unfold mock_buffer_resize
        rw [if_neg h]
      have hc : (mock_buffer_resize b n).1.capacity = n := by
        unfold mock_buffer_resize
        rw [if_neg h]
      obtain ⟨hlen, hcap, hterm⟩ := hb
      refine ⟨?_, ?_, ?_⟩
      · rw [hd, hc]
        apply length_reallocBytes
      · rw [hs, hc]
        omega
      · rw [hd, hs]
        rw [getElem?_reallocBytes b.data n b.size (by omega) (by omega)]
        exact hterm

theorem claim_C4_witness :
    ¬ buffer_inv (mock_buffer_create 0) ∧
    buffer_inv (mock_buffer_create 1) ∧
    buffer_inv (mock_buffer_append (mock_buffer_create 1) [65]).1 :=
  ⟨claim_C4.1, claim_C4.2.1 1 (by decide),
    claim_C4.2.2.1 (mock_buffer_create 1) [65]
      (claim_C4.2.1 1 (by decide)) (by decide)⟩

/-- C6: for every invariant-satisfying buffer and non-empty byte span, when
`length + count + 1 > capacity` a successful `append` grows the capacity to
the least value reachable by repeatedly doubling the old capacity that is
at least `length + count + 1`, preserves the bytes at `[0, length)`, copies
the `count` new bytes at the old length, advances the length by `count`,
and writes a terminator at the new length. -/
theorem claim_C6 (b : mock_buffer_t) (l : List Nat) (hinv : buffer_inv b)
    (hl : l ≠ []) (hgrow : b.capacity < b.size + l.length + 1) :
    (mock_buffer_append b l).2 = 0 ∧
    (∃ k, (mock_buffer_append b l).1.capacity = b.capacity * 2 ^ k) ∧
    b.size + l.length + 1 ≤ (mock_buffer_append b l).1.capacity ∧
    (∀ j, b.size + l.length + 1 ≤ b.capacity * 2 ^ j →
      (mock_buffer_append b l).1.capacity ≤ b.capacity * 2 ^ j) ∧
    (mock_buffer_append b l).1.data.take b.size = b.data.take b.size ∧
    ((mock_buffer_append b l).1.data.drop b.size).take l.length = l ∧
    (mock_buffer_append b l).1.size = b.size + l.length ∧
    (mock_buffer_append b l).1.data[(mock_buffer_append b l).1.size]? = some 0 := by
  obtain ⟨hz, hinv2, hsize, htake, _, hcapg⟩ := append_spec b l hinv hl
  have hgw := hcapg hgrow
  have hcap1 : 1 ≤ b.capacity := by
    obtain ⟨_, h2, _⟩ := hinv
    omega
  have htakelen : (List.take b.size b.data).length = b.size := by
    obtain ⟨h1, h2, _⟩ := hinv
    simp only [List.length_take]
    omega
  refine ⟨hz, ?_, ?_, ?_, ?_, ?_, hsize, hinv2.2.2⟩
  · obtain ⟨k, hk⟩ := growWhile_some_pow _ _ _ _ hgw
    refine ⟨k + 1, ?_⟩
    rw [hk, pow_succ]
    ring
  · exact (growWhile_some_ge _ _ _ _ hgw).1
  · intro j hj
    match j with
    | 0 =>
      simp only [pow_zero, Nat.mul_one] at hj
      omega
    | j + 1 =>
      have hrw : b.capacity * 2 ^ (j + 1) = b.capacity * 2 * 2 ^ j := by
        rw [pow_succ]
        ring
      rw [hrw] at hj ⊢
      exact growWhile_some_min _ _ _ _ hgw j hj
  · calc (mock_buffer_append b l).1.data.take b.size
        = ((mock_buffer_append b l).1.data.take (b.size + l.length)).take b.size := by
          rw [List.take_take, Nat.min_eq_left (by omega)]
      _ = (b.data.take b.size ++ l).take b.size := by rw [htake]
      _ = (b.data.take b.size).take b.size := by
          rw [List.take_append_of_le_length (by rw [htakelen])]
      _ = b.data.take b.size := by
          rw [List.take_take, Nat.min_self]
  · calc ((mock_buffer_append b l).1.data.drop b.size).take l.length
        = ((mock_buffer_append b l).1.data.take (b.size + l.length)).drop b.size := by
          rw [List.take_drop]
      _ = (b.data.take b.size ++ l).drop b.size := by rw [htake]
      _ = l := List.drop_left' htakelen

theorem claim_C6_witness :
    (mock_buffer_append (mock_buffer_create 1) [65, 66]).2 = 0 ∧
    (∃ k, (mock_buffer_append (mock_buffer_create 1) [65, 66]).1.capacity
      = (mock_buffer_create 1).capacity * 2 ^ k) ∧
    (mock_buffer_create 1).size + [65, 66].length + 1
      ≤ (mock_buffer_append (mock_buffer_create 1) [65, 66]).1.capacity := by
  have h := claim_C6 (mock_buffer_create 1) [65, 66] (by decide) (by decide)
    (by decide)
  exact ⟨h.1, h.2.1, h.2.2.1⟩

/-- C7: for every invariant-satisfying buffer, `resize(newCapacity)` fails
(returns -1) exactly when `newCapacity ≤ length`, leaving the buffer
unchanged in that case; when `newCapacity > length` (reallocation modelled
as succeeding) it returns 0, sets the capacity to exactly `newCapacity`,
keeps the length, and preserves the bytes at `[0, length)`. -/
theorem claim_C7 (b : mock_buffer_t) (n : Nat) (hinv : buffer_inv b) :
    ((mock_buffer_resize b n).2 = -1 ↔ n ≤ b.size) ∧
    (n ≤ b.size → (mock_buffer_resize b n).1 = b) ∧
    (b.size < n →
      (mock_buffer_resize b n).2 = 0 ∧
      (mock_buffer_resize b n).1.capacity = n ∧
      (mock_buffer_resize b n).1.size = b.size ∧
      (mock_buffer_resize b n).1.data.take b.size = b.data.take b.size) := by
  obtain ⟨hlen, hcap, _⟩ := hinv
  unfold mock_buffer_resize
  by_cases h : n ≤ b.size
  · rw [if_pos h]
    exact ⟨by simp [h], fun _ => rfl, fun hlt => absurd hlt (by omega)⟩
  · rw [if_neg h]
    refine ⟨?_, fun hle => absurd hle h, fun _ => ⟨rfl, rfl, rfl, ?_⟩⟩
    · constructor
      · intro h0
        exact absurd h0 (by norm_num)
      · intro hle
        exact absurd hle h
    · exact take_reallocBytes b.data n b.size (by omega) (by omega)

theorem claim_C7_witness :
    (mock_buffer_resize (mock_buffer_create 3) 0).2 = -1 ∧
    (mock_buffer_resize (mock_buffer_create 3) 5).2 = 0 ∧
    (mock_buffer_resize (mock_buffer_create 3) 5).1.capacity = 5 := by
  have h1 := claim_C7 (mock_buffer_create 3) 0 (by decide)
  have h2 := claim_C7 (mock_buffer_create 3) 5 (by decide)
  exact ⟨h1.1.mpr (by decide), (h2.2.2 (by decide)).1, (h2.2.2 (by decide)).2.1⟩

/-- C9: two sequential successful `parse` calls on the same handle leave
the stored output equal to the transform of the second input alone, with
its length, not the concatenation of the two transforms. -/
theorem claim_C9 (p : mock_parser_t) (A B : List Nat)
    (hA : A ≠ []) (hA2 : ∀ b ∈ A, 32 ≤ b ∧ b ≤ 126)
    (hB : B ≠ []) (hB2 : ∀ b ∈ B, 32 ≤ b ∧ b ≤ 126) :
    (mock_parser_parse p (some A) true true).2 = 0 ∧
    (mock_parser_parse (mock_parser_parse p (some A) true true).1 (some B) true true).2 = 0 ∧
    (mock_parser_parse (mock_parser_parse p (some A) true true).1 (some B) true true).1.input
      = some (B.map processChar) ∧
    (mock_parser_parse (mock_parser_parse p (some A) true true).1 (some B) true true).1.input_size
      = B.length := by
  rw [parse_valid_spec _ B hB hB2, parse_valid_spec p A hA hA2]
  exact ⟨rfl, rfl, rfl, rfl⟩

theorem claim_C9_witness :
    (mock_parser_parse (mock_parser_parse mock_parser_create (some [97, 98]) true true).1 (some [99]) true true).1.input
      = some [67] ∧
    (mock_parser_parse (mock_parser_parse mock_parser_create (some [97, 98]) true true).1 (some [99]) true true).1.input_size
      = 1 := by
  have h := claim_C9 mock_parser_create [97, 98] [99]
    (by decide) (by decide) (by decide) (by decide)
  refine ⟨?_, ?_⟩
  · rw [h.2.2.1]
    decide
  · rw [h.2.2.2]
    rfl

/-- C10: the growth loop of `append` terminates for every positive starting
capacity — with fuel `length + count + 1` it reaches a value at least
`length + count + 1`, each iteration strictly increasing from any positive
value — while from starting capacity 0 it makes no progress and no amount
of fuel makes it terminate; consequently `append` on any
invariant-satisfying buffer (whose capacity is necessarily ≥ 1) returns
successfully on every non-empty span. -/
theorem claim_C10 (cap size count : Nat) (hcap : 1 ≤ cap) :
    (∃ r, growWhile (size + count + 1) (cap * 2) (size + count + 1) = some r ∧
      size + count + 1 ≤ r) ∧
    (∀ nc, 1 ≤ nc → nc < nc * 2) ∧
    (∀ fuel, growWhile fuel 0 (size + count + 1) = none) ∧
    (∀ b l, buffer_inv b → l ≠ [] → (mock_buffer_append b l).2 = 0) := by
  refine ⟨?_, ?_, ?_, ?_⟩
  · obtain ⟨r, hr⟩ := growWhile_isSome (size + count + 1) (cap * 2)
      (size + count + 1) (by omega) (by omega)
    exact ⟨r, hr, (growWhile_some_ge _ _ _ _ hr).1⟩
  · intro nc h
    omega
  · intro fuel
    exact growWhile_zero_start fuel _ (by omega)
  · intro b l hb hl
    exact (append_spec b l hb hl).1

theorem claim_C10_witness :
    growWhile 7 0 (0 + 1 + 1) = none :=
  (claim_C10 1 0 1 (by decide)).2.2.1 7

/-- C5 counterexample: a parser that successfully parsed "hi" holds stored
output [72, 73]; a second parse of "a" whose final output allocation fails
returns -1 with error code 5 but leaves the stored output as null (the
prior copy was freed) and the stored size overwritten to 1 — not the
pre-call values, refuting the claim's atomicity at this input. -/
theorem claim_C5_counterexample :
    (mock_parser_parse mock_parser_create (some [104, 105]) true true).1.input
      = some [72, 73] ∧
    (mock_parser_parse mock_parser_create (some [104, 105]) true true).1.input_size = 2 ∧
    (mock_parser_parse (mock_parser_parse mock_parser_create (some [104, 105]) true true).1 (some [97]) true false).2 = -1 ∧
    (mock_parser_parse (mock_parser_parse mock_parser_create (some [104, 105]) true true).1 (some [97]) true false).1.error_code = 5 ∧
    (mock_parser_parse (mock_parser_parse mock_parser_create (some [104, 105]) true true).1 (some [97]) true false).1.input = none ∧
    (mock_parser_parse (mock_parser_parse mock_parser_create (some [104, 105]) true true).1 (some [97]) true false).1.input_size = 1 := by
  decide

/-- C5 (amended): every failing parse leaves `state` unchanged, and every
failure other than the final output allocation (error code 5) also leaves
`storedOutput` and its size unchanged; but on OutputAllocationFailed the
prior stored output is freed and replaced by null and the stored size is
overwritten with the new transformed length. -/
theorem claim_C5_amended (p : mock_parser_t) (input : Option (List Nat))
    (bOk fOk : Bool) :
    ((mock_parser_parse p input bOk fOk).2 = -1 →
      (mock_parser_parse p input bOk fOk).1.state = p.state) ∧
    ((mock_parser_parse p input bOk fOk).2 = -1 →
      (mock_parser_parse p input bOk fOk).1.error_code ≠ 5 →
      (mock_parser_parse p input bOk fOk).1.input = p.input ∧
      (mock_parser_parse p input bOk fOk).1.input_size = p.input_size) ∧
    (∀ bytes, input = some bytes → bytes ≠ [] →
      (∀ b ∈ bytes, 32 ≤ b ∧ b ≤ 126) → bOk = true → fOk = false →
      (mock_parser_parse p input bOk fOk).2 = -1 ∧
      (mock_parser_parse p input bOk fOk).1.error_code = 5 ∧
      (mock_parser_parse p input bOk fOk).1.state = p.state ∧
      (mock_parser_parse p input bOk fOk).1.input = none ∧
      (mock_parser_parse p input bOk fOk).1.input_size = bytes.length) := by
  refine ⟨?_, ?_, ?_⟩
  · intro hfail
    rcases parse_branches p input bOk fOk with h | h | h | ⟨sz, h⟩ | h
    · rw [h]
    · rw [h]
    · rw [h]
    · rw [h]
    · rw [h] at hfail
      exact absurd hfail (by norm_num)
  · intro hfail hne5
    rcases parse_branches p input bOk fOk with h | h | h | ⟨sz, h⟩ | h
    · rw [h]
      exact ⟨rfl, rfl⟩
    · rw [h]
      exact ⟨rfl, rfl⟩
    · rw [h]
      exact ⟨rfl, rfl⟩
    · rw [h] at hne5
      exact absurd rfl hne5
    · rw [h] at hfail
      exact absurd hfail (by norm_num)
  · intro bytes heq hne hpr hb hf
    subst heq hb hf
    rw [parse_final_alloc_fail_spec p bytes hne hpr]
    exact ⟨rfl, rfl, rfl, rfl, rfl⟩

theorem claim_C5_amended_witness :
    (mock_parser_parse mock_parser_create (some [97]) true false).2 = -1 ∧
    (mock_parser_parse mock_parser_create (some [97]) true false).1.error_code = 5 ∧
    (mock_parser_parse mock_parser_create none true true).1.input
      = mock_parser_create.input := by
  have h1 := (claim_C5_amended mock_parser_create (some [97]) true false).2.2
    [97] rfl (by decide) (by decide) rfl rfl
  have h2 := (claim_C5_amended mock_parser_create none true true).2.1
    (by decide) (by decide)
  exact ⟨h1.1, h1.2.1, h2.1⟩

/-- C8: with both allocations succeeding, a non-null parser's `parse` fails
with error code 1 (NullOrEmptyInput) exactly when the input is null or
empty; for a non-empty input it fails exactly when some byte lies outside
the printable range [32,126], and then with error code 2
(ValidationFailed); on every such failure `state` and the stored output
and its size are unchanged. -/
theorem claim_C8 (p : mock_parser_t) (input : Option (List Nat)) :
    (((mock_parser_parse p input true true).2 = -1 ∧
      (mock_parser_parse p input true true).1.error_code = 1)
      ↔ (input = none ∨ input = some [])) ∧
    (∀ bytes, input = some bytes → bytes ≠ [] →
      (((mock_parser_parse p input true true).2 = -1)
        ↔ ∃ b ∈ bytes, b < 32 ∨ 126 < b) ∧
      ((mock_parser_parse p input true true).2 = -1 →
        (mock_parser_parse p input true true).1.error_code = 2)) ∧
    ((mock_parser_parse p input true true).2 = -1 →
      (mock_parser_parse p input true true).1.state = p.state ∧
      (mock_parser_parse p input true true).1.input = p.input ∧
      (mock_parser_parse p input true true).1.input_size = p.input_size) := by
  match input with
  | none =>
    refine ⟨⟨fun _ => Or.inl rfl, fun _ => ⟨rfl, rfl⟩⟩, ?_, ?_⟩
    · intro bytes heq
      exact absurd heq (by simp)
    · intro _
      exact ⟨rfl, rfl, rfl⟩
  | some bytes =>
    by_cases hb0 : bytes = []
    · subst hb0
      have hred : mock_parser_parse p (some ([] : List Nat)) true true
          = ({ p with error_code := 1 }, -1) := rfl
      refine ⟨?_, ?_, ?_⟩
      · rw [hred]
        exact ⟨fun _ => Or.inr rfl, fun _ => ⟨rfl, rfl⟩⟩
      · intro bytes' heq hne'
        have : bytes' = [] := by simpa using heq.symm
        exact absurd this hne'
      · rw [hred]
        intro _
        exact ⟨rfl, rfl, rfl⟩
    · by_cases hall : ∀ b ∈ bytes, 32 ≤ b ∧ b ≤ 126
      · have hred := parse_valid_spec p bytes hb0 hall
        refine ⟨?_, ?_, ?_⟩
        · rw [hred]
          constructor
          · rintro ⟨h01, _⟩
            exact absurd h01 (by norm_num)
          · rintro (h | h)
            · exact absurd h (by simp)
            · rw [Option.some.injEq] at h
              exact absurd h hb0
        · intro bytes' heq hne'
          rw [Option.some.injEq] at heq
          subst heq
          rw [hred]
          constructor
          · constructor
            · intro h01
              exact absurd h01 (by norm_num)
            · rintro ⟨b, hbm, hbad⟩
              have := hall b hbm
              omega
          · intro h01
            exact absurd h01 (by norm_num)
        · rw [hred]
          intro h01
          exact absurd h01 (by norm_num)
      · have hv : mock_validate_input (some bytes) ≠ 1 := fun hv1 =>
          hall ((validate_eq_one bytes hb0).mp hv1)
        have hred : mock_parser_parse p (some bytes) true true
            = ({ p with error_code := 2 }, -1) := by
          simp only [mock_parser_parse]
          rw [if_neg (by simpa [List.length_eq_zero] using hb0), if_pos hv]
        refine ⟨?_, ?_, ?_⟩
        · rw [hred]
          constructor
          · rintro ⟨_, h21⟩
            exact absurd h21 (by norm_num)
          · rintro (h | h)
            · exact absurd h (by simp)
            · rw [Option.some.injEq] at h
              exact absurd h hb0
        · intro bytes' heq hne'
          rw [Option.some.injEq] at heq
          subst heq
          rw [hred]
          refine ⟨?_, fun _ => rfl⟩
          constructor
          · intro _
            rw [Classical.not_forall] at hall
            obtain ⟨b, hb⟩ := hall
            rw [Classical.not_imp] at hb
            exact ⟨b, hb.1, by have := hb.2; omega⟩
          · intro _
            rfl
        · rw [hred]
          intro _
          exact ⟨rfl, rfl, rfl⟩

theorem claim_C8_witness :
    (mock_parser_parse mock_parser_create (some [1]) true true).2 = -1 ∧
    (mock_parser_parse mock_parser_create (some [1]) true true).1.error_code = 2 ∧
    (mock_parser_parse mock_parser_create none true true).1.error_code = 1 := by
  have h1 := (claim_C8 mock_parser_create (some [1])).2.1 [1] rfl (by decide)
  have h2 := (claim_C8 mock_parser_create none).1
  have hfail : (mock_parser_parse mock_parser_create (some [1]) true true).2 = -1 :=
    h1.1.mpr ⟨1, by decide, by decide⟩
  exact ⟨hfail, h1.2 hfail, (h2.mpr (Or.inl rfl)).2⟩

end Mocklib
